import Mathlib

/-!
Verification of the document-synchronization layer of `mongo_test`
(`src/MongoDb.py`, error taxonomy in `src/Fundamental.py`).

Shallow embedding: Python documents (ordered `dict`s) become association
lists `List (String × Value)`; the collection state is a `List Doc`; the
pymongo collection primitives (`find`, `insert_one`, `insert_many`,
`replace_one`, `update_one` with `upsert=True`, `remove`) become pure
functions on that state.  Backend operation failures (pymongo's
`OperationFailure`, wrapped into `DBError` by the source) are injected
through explicit `fail` flags where a claim needs them; Python's built-in
`KeyError` (raised by `document["k"]` on a missing key and not caught by
the source, which only catches `OperationFailure`) is a separate error
constructor.  Wall-clock time (`datetime.now`) is an explicit `Nat`
parameter per call.

The nesting that actually occurs in this repository is one level deep: a
document maps field names to either a scalar or the `"data"` sub-mapping
of scalars (spec §3; `main.py`).  `Value` therefore has a scalar layer
`Prim` and a one-level `dict` layer.
-/

namespace MongoTest

/-- Scalar values stored in documents (strings, integers, timestamps).
`time t` stands for a `datetime` produced by `datetime.now(...)` at clock
reading `t`. -/
inductive Prim where
  | str : String → Prim
  | int : Int → Prim
  | time : Nat → Prim
deriving Repr, DecidableEq

/-- A document field value: a scalar or a one-level sub-mapping
(the `"data"` field of `main.py`'s documents). -/
inductive Value where
  | prim : Prim → Value
  | dict : List (String × Prim) → Value
deriving Repr, DecidableEq

/-- A document: a Python `dict` as an ordered association list. -/
abbrev Doc := List (String × Value)

/-- A collection state: the ordered list of stored documents. -/
abbrev Coll := List Doc

/-- Error taxonomy.  `dataReadError`, `dbError`, `insertError` and
`usageError` embed `Fundamental.DataReadError`, `Fundamental.DBError`,
`Fundamental.InsertError` and `Fundamental.UsageError`; `keyError k`
embeds Python's built-in `KeyError` for key `k` (not part of the
package's `Error` hierarchy); `attributeError` embeds Python's built-in
`AttributeError` (e.g. `.items()` on a non-dict). -/
inductive Err where
  | dataReadError : Err
  | dbError : Err
  | insertError : Err
  | usageError : Err
  | keyError : String → Err
  | attributeError : Err
deriving Repr, DecidableEq

/-- `m[k]` lookup on an ordered association list: first binding wins
(Python dicts never hold duplicate keys, so this agrees with `dict`
lookup on any list arising from a `dict`). -/
def lookupKV {α : Type} : List (String × α) → String → Option α
  | [], _ => none
  | kv :: rest, k => if kv.1 = k then some kv.2 else lookupKV rest k

/-- `m[k] = v` assignment on an ordered association list: update the first
binding in place if the key is present, append otherwise.  This is both
Python `dict` assignment and MongoDB `$set` field-order behaviour. -/
def setKV {α : Type} : List (String × α) → String → α → List (String × α)
  | [], k, v => [(k, v)]
  | kv :: rest, k, v => if kv.1 = k then (k, v) :: rest else kv :: setKV rest k v

/-- Left-biased choice on options (used to state lookup lemmas). -/
def firstSome {α : Type} : Option α → Option α → Option α
  | some v, _ => some v
  | none, b => b

/-- Sequential assignment of a list of bindings (`$set` with several
fields, or re-building a dict field by field). -/
def applyFields {α : Type} (m : List (String × α)) (fs : List (String × α)) :
    List (String × α) :=
  fs.foldl (fun a kv => setKV a kv.1 kv.2) m

/-- Remove every binding of a key (spec-side helper used only to state
amended properties about the `createTime` field). -/
def dropKV {α : Type} (m : List (String × α)) (k : String) : List (String × α) :=
  m.filter (fun kv => decide (kv.1 ≠ k))

@[simp]
theorem lookupKV_nil {α : Type} (k : String) :
    lookupKV ([] : List (String × α)) k = none := rfl

@[simp]
theorem lookupKV_cons {α : Type} (kv : String × α) (rest : List (String × α)) (k : String) :
    lookupKV (kv :: rest) k = if kv.1 = k then some kv.2 else lookupKV rest k := rfl

@[simp]
theorem setKV_nil {α : Type} (k : String) (v : α) :
    setKV ([] : List (String × α)) k v = [(k, v)] := rfl

@[simp]
theorem setKV_cons {α : Type} (kv : String × α) (rest : List (String × α)) (k : String) (v : α) :
    setKV (kv :: rest) k v = if kv.1 = k then (k, v) :: rest else kv :: setKV rest k v := rfl

theorem applyFields_cons {α : Type} (m : List (String × α)) (kv : String × α)
    (rest : List (String × α)) :
    applyFields m (kv :: rest) = applyFields (setKV m kv.1 kv.2) rest := rfl

theorem lookupKV_setKV {α : Type} (m : List (String × α)) (k k' : String) (v : α) :
    lookupKV (setKV m k v) k' = if k = k' then some v else lookupKV m k' := by
  induction m with
  | nil => simp
  | cons kv rest ih =>
    by_cases h1 : kv.1 = k
    · rw [setKV_cons, if_pos h1]
      by_cases h2 : k = k'
      · subst h2; simp [h1]
      · rw [lookupKV_cons, lookupKV_cons, if_neg h2]
        have h3 : ¬ ((k, v) : String × α).1 = k' := h2
        have h4 : ¬ kv.1 = k' := fun hh => h2 (h1.symm.trans hh)
        rw [if_neg h3, if_neg h4]
    · rw [setKV_cons, if_neg h1, lookupKV_cons]
      by_cases h2 : kv.1 = k'
      · have h3 : ¬ k = k' := fun hh => h1 (h2.trans hh.symm)
        rw [if_pos h2, if_neg h3, lookupKV_cons, if_pos h2]
      · rw [if_neg h2, ih, lookupKV_cons, if_neg h2]

theorem setKV_of_lookup_none {α : Type} (k : String) (v : α) :
    ∀ m : List (String × α), lookupKV m k = none → setKV m k v = m ++ [(k, v)] := by
  intro m
  induction m with
  | nil => intro _; rfl
  | cons kv rest ih =>
    intro h
    rw [lookupKV_cons] at h
    by_cases h1 : kv.1 = k
    · rw [if_pos h1] at h; exact absurd h (by simp)
    · rw [if_neg h1] at h
      rw [setKV_cons, if_neg h1, List.cons_append, ih h]

theorem setKV_noop {α : Type} (k : String) (v : α) :
    ∀ m : List (String × α), lookupKV m k = some v → setKV m k v = m := by
  intro m
  induction m with
  | nil => intro h; simp at h
  | cons kv rest ih =>
    intro h
    obtain ⟨a, b⟩ := kv
    rw [lookupKV_cons] at h
    by_cases h1 : a = k
    · simp [h1] at h
      rw [setKV_cons, if_pos (by simpa using h1)]
      rw [h1, h]
    · simp [h1] at h
      rw [setKV_cons, if_neg (by simpa using h1), ih h]

theorem keys_ne_of_lookup_none {α : Type} (k : String) :
    ∀ m : List (String × α), lookupKV m k = none → ∀ kv ∈ m, kv.1 ≠ k := by
  intro m
  induction m with
  | nil => intro _ kv h; simp at h
  | cons kv0 rest ih =>
    intro h kv hmem
    rw [lookupKV_cons] at h
    by_cases h1 : kv0.1 = k
    · rw [if_pos h1] at h; exact absurd h (by simp)
    · rw [if_neg h1] at h
      rcases List.mem_cons.mp hmem with h2 | h2
      · rw [h2]; exact h1
      · exact ih h kv h2

theorem lookupKV_eq_none_of_not_mem {α : Type} (k : String) :
    ∀ m : List (String × α), k ∉ m.map Prod.fst → lookupKV m k = none := by
  intro m
  induction m with
  | nil => intro _; rfl
  | cons kv rest ih =>
    intro h
    rw [List.map_cons, List.mem_cons] at h
    push_neg at h
    have h1 : kv.1 ≠ k := fun he => h.1 he.symm
    rw [lookupKV_cons, if_neg h1]
    exact ih h.2

theorem lookupKV_of_mem_nodup {α : Type} (k : String) (v : α) :
    ∀ m : List (String × α), (m.map Prod.fst).Nodup → (k, v) ∈ m → lookupKV m k = some v := by
  intro m
  induction m with
  | nil => intro _ h; simp at h
  | cons kv rest ih =>
    intro hnd hmem
    rw [List.map_cons, List.nodup_cons] at hnd
    rcases List.mem_cons.mp hmem with h | h
    · rw [← h]; simp
    · have h1 : kv.1 ≠ k := by
        intro he
        apply hnd.1
        rw [he]
        exact (List.mem_map_of_mem Prod.fst h : _)
      rw [lookupKV_cons, if_neg h1]
      exact ih hnd.2 h

theorem lookupKV_applyFields {α : Type} (k : String) :
    ∀ (fs m : List (String × α)), (fs.map Prod.fst).Nodup →
      lookupKV (applyFields m fs) k = firstSome (lookupKV fs k) (lookupKV m k) := by
  intro fs
  induction fs with
  | nil => intro m _; simp [applyFields, firstSome]
  | cons kv rest ih =>
    intro m hnd
    rw [List.map_cons, List.nodup_cons] at hnd
    rw [applyFields_cons, ih (setKV m kv.1 kv.2) hnd.2, lookupKV_cons]
    by_cases h1 : kv.1 = k
    · rw [if_pos h1]
      have hrest : lookupKV rest k = none := by
        apply lookupKV_eq_none_of_not_mem
        rw [← h1]
        exact hnd.1
      rw [hrest, lookupKV_setKV, if_pos h1]
      rfl
    · rw [if_neg h1]
      have h2 : lookupKV (setKV m kv.1 kv.2) k = lookupKV m k := by
        rw [lookupKV_setKV, if_neg h1]
      rw [h2]

theorem applyFields_noop {α : Type} :
    ∀ (fs m : List (String × α)), (∀ kv ∈ fs, lookupKV m kv.1 = some kv.2) →
      applyFields m fs = m := by
  intro fs
  induction fs with
  | nil => intro m _; rfl
  | cons kv rest ih =>
    intro m h
    have h0 : lookupKV m kv.1 = some kv.2 := h kv (by simp)
    rw [applyFields_cons, setKV_noop kv.1 kv.2 m h0]
    exact ih m (fun kv2 hmem => h kv2 (by simp [hmem]))

theorem dropKV_eq_self_of_none {α : Type} (k : String) :
    ∀ m : List (String × α), lookupKV m k = none → dropKV m k = m := by
  intro m
  induction m with
  | nil => intro _; rfl
  | cons kv rest ih =>
    intro h
    rw [lookupKV_cons] at h
    by_cases h1 : kv.1 = k
    · rw [if_pos h1] at h; exact absurd h (by simp)
    · rw [if_neg h1] at h
      have hp : decide (kv.1 ≠ k) = true := by simp [h1]
      simp only [dropKV, List.filter_cons, hp, if_true]
      have := ih h
      simp only [dropKV] at this
      rw [this]

theorem dropKV_setKV_of_none {α : Type} (m : List (String × α)) (k : String) (v : α)
    (h : lookupKV m k = none) : dropKV (setKV m k v) k = m := by
  rw [setKV_of_lookup_none k v m h]
  have h2 : dropKV (m ++ [(k, v)]) k = dropKV m k ++ dropKV [(k, v)] k := by
    simp [dropKV]
  rw [h2, dropKV_eq_self_of_none k m h]
  simp [dropKV]

/-! ## Config (`MongoDBConfig`, `src/MongoDb.py` lines 24-72) -/

/-- `MongoDBConfig` dataclass fields (`src/MongoDb.py` lines 29-37).
Paths are plain strings. -/
structure MongoDBConfig where
  host : String
  user_name : String
  password : String
  database : String
  collection : String
  ca_file : Option String := none
  replica_set : Option String := none
  read_preference : Option String := none
  port : Nat := 27017
deriving Repr, DecidableEq

/-- `MongoDBConfig.__post_init__` (`src/MongoDb.py` lines 39-44): if a CA
file path is supplied and `Path.is_file()` is false for it, construction
raises `DataReadError`; otherwise the frozen dataclass is produced
unchanged.  The filesystem is an oracle `fileExists : String → Bool`
(`Path.is_file`: the path exists and is a regular file). -/
def mongoDBConfigInit (fileExists : String → Bool) (c : MongoDBConfig) :
    Except Err MongoDBConfig :=
  match c.ca_file with
  | some p => if fileExists p then .ok c else .error Err.dataReadError
  | none => .ok c

/-! ## Connection manager construction (`MongoDB.__init__`, lines 109-122)

The source reads:
```
with MongoClient(config.uri, **config.pymongo_option_dict) as self.__client:
    self.__collection = self.__client[config.database].get_collection(config.collection)
```
`MongoClient.__enter__` opens the client; the `with` block ends while
still inside `__init__`, so `MongoClient.__exit__` — which calls
`close()` — runs when `__init__` returns.  The handle therefore leaves
construction with a *closed* client.  `serverReachable` models whether
server selection succeeds within the driver timeout
(`ServerSelectionTimeoutError` → `DBError`). -/

/-- The state a constructed `MongoDB` wrapper holds: whether the
underlying `MongoClient` is still open, and the collection contents. -/
structure MongoDBHandle where
  clientOpen : Bool
  coll : Coll
deriving Repr, DecidableEq

/-- `MongoDB.__init__` (`src/MongoDb.py` lines 109-122). -/
def mongoDBInit (serverReachable : Bool) (initial : Coll) : Except Err MongoDBHandle :=
  if serverReachable then
    -- `with` block: client opened, collection selected, then the block
    -- exits (still inside `__init__`) and `MongoClient.__exit__` closes
    -- the client.
    .ok { clientOpen := false, coll := initial }
  else
    .error Err.dbError

/-! ## MongoDB update documents

The source builds `update_one` update documents of two shapes:
`{"$set": {k: v, ...}}` with plain top-level keys (`upsert_all`,
`upsert_each`) and `{"$set": {f"data.{station_id}": v}}` with a dotted
path (`upsert_stations`); `$setOnInsert` always carries the plain key
`"createTime"`. -/

/-- One `$set`/`$setOnInsert` entry: a plain top-level key, or a dotted
path `k.sub` into a one-level sub-mapping. -/
inductive SetEntry where
  | top : String → Value → SetEntry
  | sub : String → String → Prim → SetEntry
deriving Repr, DecidableEq

/-- MongoDB rejects an update document whose operators address
conflicting (equal or prefix-related) paths, e.g. `$set: {"createTime": _}`
together with `$setOnInsert: {"createTime": _}`
(`OperationFailure`, which the source wraps into `DBError`). -/
def entryConflicts : SetEntry → SetEntry → Bool
  | .top k _, .top k' _ => k == k'
  | .top k _, .sub k' _ _ => k == k'
  | .sub k _ _, .top k' _ => k == k'
  | .sub k s _, .sub k' s' _ => k == k' && s == s'

/-- Apply one `$set` entry to a document.  A dotted path `k.sub` requires
the existing `k` to be a sub-document (or absent, in which case MongoDB
creates it); `$set "k.sub"` on a scalar `k` is an `OperationFailure`. -/
def applyEntry (d : Doc) : SetEntry → Except Err Doc
  | .top k v => .ok (setKV d k v)
  | .sub k subk v =>
    match lookupKV d k with
    | some (Value.dict m) => .ok (setKV d k (Value.dict (setKV m subk v)))
    | none => .ok (setKV d k (Value.dict (setKV [] subk v)))
    | some (Value.prim _) => .error Err.dbError

/-- Apply a list of `$set` entries left to right. -/
def applyUpdate (d : Doc) : List SetEntry → Except Err Doc
  | [] => .ok d
  | e :: rest =>
    match applyEntry d e with
    | .ok d1 => applyUpdate d1 rest
    | .error err => .error err

/-- `filter ⊆ doc` matching, as pymongo `find(filter)` does for
equality-only filters: every filter binding must be present with the
same value. -/
def docMatches (filter : Doc) (d : Doc) : Bool :=
  filter.all (fun kv => decide (lookupKV d kv.1 = some kv.2))

/-- Replace the first document satisfying `p` by `f` of it (pymongo
`update_one`/`replace_one` touch only the first match). -/
def updateFirstE : Coll → (Doc → Bool) → (Doc → Except Err Doc) → Except Err Coll
  | [], _, _ => .ok []
  | d :: rest, p, f =>
    if p d then
      match f d with
      | .ok d1 => .ok (d1 :: rest)
      | .error e => .error e
    else
      match updateFirstE rest p f with
      | .ok rest1 => .ok (d :: rest1)
      | .error e => .error e

/-- pymongo `Collection.update_one(filter, {"$set": sets, "$setOnInsert":
onIns}, upsert=True)`: reject conflicting operator paths; else update the
first matching document with `$set` only; else insert a new document
built from the (equality) filter, then `$set`, then `$setOnInsert`. -/
def update_one (s : Coll) (filter : Doc) (sets onIns : List SetEntry) : Except Err Coll :=
  if sets.any (fun e => onIns.any (fun e2 => entryConflicts e e2)) then
    .error Err.dbError
  else if s.any (docMatches filter) then
    updateFirstE s (docMatches filter) (fun d => applyUpdate d sets)
  else
    match applyUpdate filter sets with
    | .ok d0 =>
      match applyUpdate d0 onIns with
      | .ok d1 => .ok (s ++ [d1])
      | .error e => .error e
    | .error e => .error e

/-! ## The synchronizer operations (`MongoDB` methods and `identity`) -/

/-- `identity` (`src/MongoDb.py` lines 293-303):
`return {"_id": input_document["_id"]}`.  The subscript on a document
lacking `"_id"` raises Python's built-in `KeyError`; nothing in the
source catches or translates it. -/
def identity (d : Doc) : Except Err Doc :=
  match lookupKV d "_id" with
  | some v => .ok [("_id", v)]
  | none => .error (Err.keyError "_id")

/-- `MongoDB.select` (lines 277-290): `list(collection.find(field))`. -/
def select (s : Coll) (filter : Doc) : Coll :=
  s.filter (docMatches filter)

/-- `MongoDB.insert` (lines 155-171): take `identity(document)`; if
`select` of it is empty, `insert_one(document)`, else
`replace_one(doc_id, document)`.  `result.acknowledged` is true for an
acknowledged in-model backend, so the `InsertError` branch is not taken. -/
def insert (s : Coll) (d : Doc) : Coll × Except Err Unit :=
  match identity d with
  | .error e => (s, .error e)
  | .ok docId =>
    if (select s docId).length = 0 then
      (s ++ [d], .ok ())
    else
      match updateFirstE s (docMatches docId) (fun _ => .ok d) with
      | .ok s1 => (s1, .ok ())
      | .error e => (s, .error e)

/-- `MongoDB.insert_all` (lines 173-186): deep-copy every document, set
`document["createTime"] = datetime.now(tz=JST)` on each copy, then
`insert_many`.  `fail` injects an `OperationFailure` of the bulk insert
(wrapped into `DBError`); the batch is modelled as all-or-nothing. -/
def insert_all (fail : Bool) (s : Coll) (docs : List Doc) (t : Nat) :
    Coll × Except Err Unit :=
  if fail then
    (s, .error Err.dbError)
  else
    (s ++ docs.map (fun d => setKV d "createTime" (Value.prim (Prim.time t))), .ok ())

/-- `MongoDB.remove_all` (lines 237-244): `collection.remove()` deletes
every document.  `fail` injects an `OperationFailure` (→ `DBError`). -/
def remove_all (fail : Bool) (s : Coll) : Coll × Except Err Unit :=
  if fail then (s, .error Err.dbError) else ([], .ok ())

/-- `MongoDB.replace_all` (lines 246-253): `self.remove_all()` then
`self.insert_all(documents)`; no exception handling of its own, so a
failure in either phase propagates and the other phase is not
compensated. -/
def replace_all (failRemove failInsert : Bool) (s : Coll) (docs : List Doc) (t : Nat) :
    Coll × Except Err Unit :=
  match remove_all failRemove s with
  | (s1, Except.error e) => (s1, .error e)
  | (s1, Except.ok _) => insert_all failInsert s1 docs t

/-- A Python `for document in documents:` loop whose body may raise: run
`step` on each document in order; on the first error, stop with the
state committed so far (earlier documents stay updated, later ones are
never touched). -/
def runBatch (step : Coll → Doc → Coll × Except Err Unit) :
    Coll → List Doc → Coll × Except Err Unit
  | s, [] => (s, .ok ())
  | s, d :: rest =>
    match step s d with
    | (s1, Except.ok _) => runBatch step s1 rest
    | (s1, Except.error e) => (s1, .error e)

/-- Loop body of `MongoDB.upsert_all` (lines 212-217):
`update_one({"_id": document["_id"]}, {"$set": document, "$setOnInsert":
{"createTime": datetime.now(timezone.utc)}}, upsert=True)`. -/
def upsert_all_doc (s : Coll) (t : Nat) (d : Doc) : Coll × Except Err Unit :=
  match lookupKV d "_id" with
  | none => (s, .error (Err.keyError "_id"))
  | some idv =>
    match update_one s [("_id", idv)] (d.map (fun kv => SetEntry.top kv.1 kv.2))
        [SetEntry.top "createTime" (Value.prim (Prim.time t))] with
    | .ok s1 => (s1, .ok ())
    | .error e => (s, .error e)

/-- `MongoDB.upsert_all` (lines 205-219). -/
def upsert_all (s : Coll) (docs : List Doc) (t : Nat) : Coll × Except Err Unit :=
  runBatch (fun s1 d => upsert_all_doc s1 t d) s docs

/-- Loop body of `MongoDB.upsert_each` (lines 228-233): the filter
`{"_id": document["_id"]}` is built first (so a missing `"_id"` raises
first), then `{"$set": {"data": document["data"]}, "$setOnInsert": ...}`. -/
def upsert_each_doc (s : Coll) (t : Nat) (d : Doc) : Coll × Except Err Unit :=
  match lookupKV d "_id" with
  | none => (s, .error (Err.keyError "_id"))
  | some idv =>
    match lookupKV d "data" with
    | none => (s, .error (Err.keyError "data"))
    | some dv =>
      match update_one s [("_id", idv)] [SetEntry.top "data" dv]
          [SetEntry.top "createTime" (Value.prim (Prim.time t))] with
      | .ok s1 => (s1, .ok ())
      | .error e => (s, .error e)

/-- `MongoDB.upsert_each` (lines 221-235). -/
def upsert_each (s : Coll) (docs : List Doc) (t : Nat) : Coll × Except Err Unit :=
  runBatch (fun s1 d => upsert_each_doc s1 t d) s docs

/-- The inner `for station_id, station_data in document["data"].items():`
loop of `MongoDB.upsert_stations` (lines 195-201).  The `"_id"` subscript
sits inside the loop body, so it is (re-)evaluated per item; `idv` is
`lookupKV d "_id"` of the enclosing document. -/
def upsertStationItems (s : Coll) (idv : Option Value) (t : Nat) :
    List (String × Prim) → Coll × Except Err Unit
  | [] => (s, .ok ())
  | (stationId, stationData) :: rest =>
    match idv with
    | none => (s, .error (Err.keyError "_id"))
    | some iv =>
      match update_one s [("_id", iv)] [SetEntry.sub "data" stationId stationData]
          [SetEntry.top "createTime" (Value.prim (Prim.time t))] with
      | .ok s1 => upsertStationItems s1 idv t rest
      | .error e => (s, .error e)

/-- Loop body of `MongoDB.upsert_stations` for one document:
`document["data"].items()` is evaluated first (missing `"data"` raises
`KeyError`; a scalar `"data"` raises `AttributeError` on `.items()`). -/
def upsert_stations_doc (s : Coll) (t : Nat) (d : Doc) : Coll × Except Err Unit :=
  match lookupKV d "data" with
  | none => (s, .error (Err.keyError "data"))
  | some (Value.prim _) => (s, .error Err.attributeError)
  | some (Value.dict m) => upsertStationItems s (lookupKV d "_id") t m

/-- `MongoDB.upsert_stations` (lines 188-203). -/
def upsert_stations (s : Coll) (docs : List Doc) (t : Nat) : Coll × Except Err Unit :=
  runBatch (fun s1 d => upsert_stations_doc s1 t d) s docs

/-! ## General helper lemmas about the embedded operations -/

theorem runBatch_nil (step : Coll → Doc → Coll × Except Err Unit) (s : Coll) :
    runBatch step s [] = (s, .ok ()) := rfl

theorem runBatch_cons (step : Coll → Doc → Coll × Except Err Unit) (s : Coll) (d : Doc)
    (rest : List Doc) :
    runBatch step s (d :: rest) =
      match step s d with
      | (s1, Except.ok _) => runBatch step s1 rest
      | (s1, Except.error e) => (s1, .error e) := rfl

theorem runBatch_append (step : Coll → Doc → Coll × Except Err Unit) :
    ∀ (g : List Doc) (s : Coll) (ds : List Doc), (runBatch step s g).2 = Except.ok () →
      runBatch step s (g ++ ds) = runBatch step (runBatch step s g).1 ds := by
  intro g
  induction g with
  | nil => intro s ds _; rfl
  | cons d g1 ih =>
    intro s ds h
    cases h1 : step s d with
    | mk s1 r =>
      cases r with
      | ok u =>
        have e1 : runBatch step s (d :: (g1 ++ ds)) = runBatch step s1 (g1 ++ ds) := by
          rw [runBatch_cons, h1]
        have e2 : runBatch step s (d :: g1) = runBatch step s1 g1 := by
          rw [runBatch_cons, h1]
        rw [e2] at h
        rw [List.cons_append, e1, e2]
        exact ih s1 ds h
      | error e =>
        have e2 : runBatch step s (d :: g1) = (s1, Except.error e) := by
          rw [runBatch_cons, h1]
        rw [e2] at h
        simp at h

theorem docMatches_singleton (k : String) (v : Value) (x : Doc) :
    docMatches [(k, v)] x = decide (lookupKV x k = some v) := by
  simp [docMatches]

theorem any_false_of_forall {α : Type} (p : α → Bool) :
    ∀ l : List α, (∀ x ∈ l, p x = false) → l.any p = false := by
  intro l
  induction l with
  | nil => intro _; rfl
  | cons x rest ih =>
    intro h
    rw [List.any_cons, h x (by simp), ih (fun y hy => h y (by simp [hy]))]
    rfl

theorem forall_false_of_any_false {α : Type} (p : α → Bool) :
    ∀ l : List α, l.any p = false → ∀ x ∈ l, p x = false := by
  intro l
  induction l with
  | nil => intro _ x h; simp at h
  | cons y rest ih =>
    intro h x hmem
    rw [List.any_cons] at h
    rcases List.mem_cons.mp hmem with h2 | h2
    · subst h2
      cases hpx : p x <;> simp [hpx] at h ⊢
    · cases hpy : p y <;> rw [hpy] at h
      · exact ih (by simpa using h) x h2
      · simp at h

theorem filter_eq_nil_of_false {α : Type} (p : α → Bool) :
    ∀ l : List α, (∀ x ∈ l, p x = false) → l.filter p = [] := by
  intro l
  induction l with
  | nil => intro _; rfl
  | cons x rest ih =>
    intro h
    rw [List.filter_cons, h x (by simp)]
    simp only [if_neg (by simp : ¬ (false = true))]
    exact ih (fun y hy => h y (by simp [hy]))

theorem filter_ne_nil_of_any {α : Type} (p : α → Bool) :
    ∀ l : List α, l.any p = true → l.filter p ≠ [] := by
  intro l
  induction l with
  | nil => intro h; simp at h
  | cons x rest ih =>
    intro h
    rw [List.any_cons] at h
    rw [List.filter_cons]
    cases hpx : p x with
    | true => simp
    | false =>
      rw [hpx] at h
      simp only [if_neg (by simp : ¬ (false = true))]
      exact ih (by simpa using h)

theorem select_nil_filter (s : Coll) : select s [] = s := by
  induction s with
  | nil => rfl
  | cons d rest ih =>
    show List.filter _ (d :: rest) = _
    rw [List.filter_cons]
    have h : docMatches [] d = true := rfl
    rw [h]
    simp only [if_pos rfl]
    exact congrArg (d :: ·) ih

theorem select_eq_nil_of_false (f : Doc) (s : Coll)
    (h : ∀ x ∈ s, docMatches f x = false) : select s f = [] :=
  filter_eq_nil_of_false _ s h

theorem select_append (s1 s2 : Coll) (f : Doc) :
    select (s1 ++ s2) f = select s1 f ++ select s2 f := by
  simp [select, List.filter_append]

theorem updateFirstE_cons_pos (d : Doc) (rest : Coll) (p : Doc → Bool) (f : Doc → Except Err Doc)
    (h : p d = true) :
    updateFirstE (d :: rest) p f =
      match f d with
      | .ok d1 => .ok (d1 :: rest)
      | .error e => .error e := by
  simp [updateFirstE, h]

theorem updateFirstE_cons_neg (d : Doc) (rest : Coll) (p : Doc → Bool) (f : Doc → Except Err Doc)
    (h : p d = false) :
    updateFirstE (d :: rest) p f =
      match updateFirstE rest p f with
      | .ok rest1 => .ok (d :: rest1)
      | .error e => .error e := by
  simp [updateFirstE, h]

theorem updateFirstE_append (p : Doc → Bool) (f : Doc → Except Err Doc) :
    ∀ (pre rest : Coll), (∀ x ∈ pre, p x = false) →
      updateFirstE (pre ++ rest) p f =
        match updateFirstE rest p f with
        | .ok r => .ok (pre ++ r)
        | .error e => .error e := by
  intro pre
  induction pre with
  | nil =>
    intro rest _
    cases h : updateFirstE rest p f <;> simp [h]
  | cons x pre1 ih =>
    intro rest h
    rw [List.cons_append, updateFirstE_cons_neg _ _ _ _ (h x (by simp)),
      ih rest (fun y hy => h y (by simp [hy]))]
    cases h2 : updateFirstE rest p f <;> simp [h2]

theorem updateFirstE_decomp (p : Doc → Bool) (f : Doc → Except Err Doc)
    (pre post : Coll) (z : Doc) (hpre : ∀ x ∈ pre, p x = false) (hz : p z = true) :
    updateFirstE (pre ++ z :: post) p f =
      match f z with
      | .ok z1 => .ok (pre ++ z1 :: post)
      | .error e => .error e := by
  rw [updateFirstE_append p f pre (z :: post) hpre, updateFirstE_cons_pos z post p f hz]
  cases h : f z <;> simp [h]

/-! ## C1: connection lifetime -/

/-- C1: the claim states that the underlying client connection remains
open and usable from construction until the manager is disposed, and is
released exactly when the manager's lifetime ends.  The code contradicts
this: the `with MongoClient(...)` block in `MongoDB.__init__` closes the
client when `__init__` itself returns, so every constructed handle
already has a closed client before any operation runs.  This theorem
evaluates the constructor on any reachable server and shows the released
(closed) client. -/
theorem mongoDBInit_client_closed_at_construction :
    ∀ s : Coll, mongoDBInit true s = Except.ok { clientOpen := false, coll := s } := by
  intro s
  rfl

/-! ## C2: identity on a document lacking `_id` -/

/-- C2 (counterexample): on the empty document, `identity` fails with a
raw `KeyError`, which is not the `UsageError` (UsageFailure) the claim
names. -/
theorem identity_keyerror_not_usage :
    identity [] = Except.error (Err.keyError "_id") ∧
    Err.keyError "_id" ≠ Err.usageError := by
  exact ⟨rfl, by decide⟩

/-- C2 (amended): for every document lacking `"_id"`, `identity` fails
with Python's raw `KeyError` — not translated into `UsageError`
(UsageFailure) or `DBError` — and never returns a partial or default
identity (it returns no value at all). -/
theorem identity_missing_id_raw_keyerror (d : Doc) (h : lookupKV d "_id" = none) :
    identity d = Except.error (Err.keyError "_id") ∧
    Err.keyError "_id" ≠ Err.usageError ∧
    Err.keyError "_id" ≠ Err.dbError := by
  refine ⟨?_, by decide, by decide⟩
  unfold identity
  rw [h]

/-- C2 witness: the amended theorem applied to a concrete document
without an `"_id"` field. -/
theorem identity_missing_id_raw_keyerror_witness :
    identity [("x", Value.prim (Prim.int 1))] = Except.error (Err.keyError "_id") :=
  (identity_missing_id_raw_keyerror [("x", Value.prim (Prim.int 1))] (by decide)).1

/-! ## C8: replaceAll is non-atomic -/

/-- C8: `replace_all` deletes everything and then inserts; if the delete
phase succeeds and the insert phase fails with a StorageFailure
(`OperationFailure` → `DBError`), the collection is left empty and the
failure propagates to the caller with no compensation. -/
theorem replace_all_nonatomic :
    ∀ (s : Coll) (docs : List Doc) (t : Nat),
      replace_all false true s docs t = ([], Except.error Err.dbError) := by
  intro s docs t
  rfl

/-! ## C9: Config validates the certificate path -/

/-- C9: if a certificate path is supplied and is not an existing regular
file, `MongoDBConfig` construction fails with `DataReadError` (the
spec's ConfigFailure, named ReadFailure in §4.1) and no config value is
produced; with the path absent or an existing regular file, construction
succeeds with the given fields. -/
theorem mongoDBConfigInit_validates_ca (fileExists : String → Bool) (c : MongoDBConfig)
    (p : String) :
    (c.ca_file = some p → fileExists p = false →
      mongoDBConfigInit fileExists c = Except.error Err.dataReadError) ∧
    (c.ca_file = some p → fileExists p = true →
      mongoDBConfigInit fileExists c = Except.ok c) ∧
    (c.ca_file = none → mongoDBConfigInit fileExists c = Except.ok c) := by
  refine ⟨?_, ?_, ?_⟩
  · intro h1 h2
    simp [mongoDBConfigInit, h1, h2]
  · intro h1 h2
    simp [mongoDBConfigInit, h1, h2]
  · intro h1
    simp [mongoDBConfigInit, h1]

/-- A concrete config with a CA path, for the C9 witness. -/
def configWithCA : MongoDBConfig :=
  { host := "h", user_name := "u", password := "w", database := "d",
    collection := "c", ca_file := some "ca.pem" }

/-- A concrete config without a CA path, for the C9 witness. -/
def configNoCA : MongoDBConfig :=
  { host := "h", user_name := "u", password := "w", database := "d",
    collection := "c" }

/-- C9 witness: the theorem applied to concrete configs on both the
failing and the succeeding branch. -/
theorem mongoDBConfigInit_validates_ca_witness :
    mongoDBConfigInit (fun _ => false)
      (configWithCA : MongoDBConfig) = Except.error Err.dataReadError ∧
    mongoDBConfigInit (fun _ => true)
      (configWithCA : MongoDBConfig) =
      Except.ok (configWithCA : MongoDBConfig) ∧
    mongoDBConfigInit (fun _ => false)
      (configNoCA : MongoDBConfig) =
      Except.ok (configNoCA : MongoDBConfig) := by
  refine ⟨?_, ?_, ?_⟩
  · exact (mongoDBConfigInit_validates_ca (fun _ => false)
      (configWithCA : MongoDBConfig) "ca.pem").1 rfl rfl
  · exact (mongoDBConfigInit_validates_ca (fun _ => true)
      (configWithCA : MongoDBConfig) "ca.pem").2.1 rfl rfl
  · exact (mongoDBConfigInit_validates_ca (fun _ => false)
      (configNoCA : MongoDBConfig) "ca.pem").2.2 rfl

/-! ## C3: replaceAll followed by select -/

/-- C3 (counterexample): `replace_all([d1, d2])` followed by `select({})`
does not return the set `{d1, d2}`: `insert_all` stamps a `createTime`
field onto (deep copies of) the inserted documents, so neither stored
document equals `d1` or `d2`.  Here `d1 = {"_id": 1}`, `d2 = {"_id": 2}`
against a prior state `[{"_id": 99}]` at clock 0: the result has two
documents but `d1` is not among them. -/
theorem replace_all_select_not_original_set :
    (select (replace_all false false [[("_id", Value.prim (Prim.int 99))]]
        [[("_id", Value.prim (Prim.int 1))], [("_id", Value.prim (Prim.int 2))]] 0).1 []).length = 2 ∧
    [("_id", Value.prim (Prim.int 1))] ∉
      select (replace_all false false [[("_id", Value.prim (Prim.int 99))]]
        [[("_id", Value.prim (Prim.int 1))], [("_id", Value.prim (Prim.int 2))]] 0).1 [] := by
  decide

/-- C3 (amended): for all identity-bearing `d1, d2` that do not already
carry a `createTime` field and every prior collection state, a successful
`replace_all([d1, d2])` followed by `select({})` returns exactly the two
documents each augmented with the insertion `createTime` stamp — equal to
`{d1, d2}` once that stamp is removed — and the prior collection state is
fully discarded (the result does not depend on `s`). -/
theorem replace_all_then_select (s : Coll) (d1 d2 : Doc) (t : Nat)
    (h1 : lookupKV d1 "createTime" = none) (h2 : lookupKV d2 "createTime" = none) :
    replace_all false false s [d1, d2] t
      = ([setKV d1 "createTime" (Value.prim (Prim.time t)),
          setKV d2 "createTime" (Value.prim (Prim.time t))], Except.ok ()) ∧
    select (replace_all false false s [d1, d2] t).1 []
      = [setKV d1 "createTime" (Value.prim (Prim.time t)),
         setKV d2 "createTime" (Value.prim (Prim.time t))] ∧
    (select (replace_all false false s [d1, d2] t).1 []).map (fun d => dropKV d "createTime")
      = [d1, d2] := by
  have hrepl : replace_all false false s [d1, d2] t
      = ([setKV d1 "createTime" (Value.prim (Prim.time t)),
          setKV d2 "createTime" (Value.prim (Prim.time t))], Except.ok ()) := by
    simp [replace_all, remove_all, insert_all]
  refine ⟨hrepl, ?_, ?_⟩
  · rw [hrepl, select_nil_filter]
  · rw [hrepl, select_nil_filter]
    simp only [List.map_cons, List.map_nil]
    rw [dropKV_setKV_of_none d1 "createTime" _ h1, dropKV_setKV_of_none d2 "createTime" _ h2]

/-- C3 witness: the amended theorem at concrete documents. -/
theorem replace_all_then_select_witness :
    select (replace_all false false [[("_id", Value.prim (Prim.int 99))]]
        [[("_id", Value.prim (Prim.int 1))], [("_id", Value.prim (Prim.int 2))]] 0).1 []
      = [[("_id", Value.prim (Prim.int 1)), ("createTime", Value.prim (Prim.time 0))],
         [("_id", Value.prim (Prim.int 2)), ("createTime", Value.prim (Prim.time 0))]] :=
  (replace_all_then_select [[("_id", Value.prim (Prim.int 99))]]
    [("_id", Value.prim (Prim.int 1))] [("_id", Value.prim (Prim.int 2))] 0
    (by decide) (by decide)).2.1

/-! ## C7: insert creates on fresh identity, replaces on existing -/

/-- C7: `insert(d)` first tests existence via `select(identity(d))`.
With no stored match it appends `d` (a create); with a match it replaces
the first matched document in place, keeping its position.  Both outcomes
are observable via `select` with the identity filter afterwards. -/
theorem insert_create_or_replace (s : Coll) (d : Doc) (idv : Value)
    (hid : lookupKV d "_id" = some idv) :
    (select s [("_id", idv)] = [] →
      insert s d = (s ++ [d], Except.ok ()) ∧
      select (s ++ [d]) [("_id", idv)] = [d]) ∧
    (∀ pre z post, s = pre ++ z :: post →
      (∀ x ∈ pre, docMatches [("_id", idv)] x = false) →
      docMatches [("_id", idv)] z = true →
      (∀ x ∈ post, docMatches [("_id", idv)] x = false) →
      insert s d = (pre ++ d :: post, Except.ok ()) ∧
      select (pre ++ d :: post) [("_id", idv)] = [d]) := by
  have hident : identity d = Except.ok [("_id", idv)] := by
    unfold identity
    rw [hid]
  have hdm : docMatches [("_id", idv)] d = true := by
    rw [docMatches_singleton]
    simp [hid]
  constructor
  · intro hempty
    have hins : insert s d = (s ++ [d], Except.ok ()) := by
      simp [insert, hident, hempty]
    refine ⟨hins, ?_⟩
    rw [select_append, hempty]
    simp [select, List.filter_cons, hdm]
  · intro pre z post hs hpre hz hpost
    subst hs
    have hsel1 : select (pre ++ z :: post) [("_id", idv)] = z :: select post [("_id", idv)] := by
      rw [select_append]
      rw [select_eq_nil_of_false _ pre hpre]
      simp [select, List.filter_cons, hz]
    have hselpost : select post [("_id", idv)] = [] := select_eq_nil_of_false _ post hpost
    have hlen : (select (pre ++ z :: post) [("_id", idv)]).length ≠ 0 := by
      rw [hsel1, hselpost]
      simp
    have hupd : updateFirstE (pre ++ z :: post) (docMatches [("_id", idv)]) (fun _ => .ok d)
        = .ok (pre ++ d :: post) := by
      rw [updateFirstE_decomp _ _ pre post z hpre hz]
    have hins : insert (pre ++ z :: post) d = (pre ++ d :: post, Except.ok ()) := by
      simp [insert, hident, hlen, hupd]
    refine ⟨hins, ?_⟩
    rw [select_append, select_eq_nil_of_false _ pre hpre]
    simp [select, List.filter_cons, hdm, hselpost]
    exact hpost

/-- C7 witness: the theorem at concrete inputs, on both the create and
the replace branch. -/
theorem insert_create_or_replace_witness :
    insert [] [("_id", Value.prim (Prim.int 1)), ("x", Value.prim (Prim.int 2))]
      = ([[("_id", Value.prim (Prim.int 1)), ("x", Value.prim (Prim.int 2))]], Except.ok ()) ∧
    insert [[("_id", Value.prim (Prim.int 1)), ("y", Value.prim (Prim.int 3))]]
        [("_id", Value.prim (Prim.int 1)), ("x", Value.prim (Prim.int 2))]
      = ([[("_id", Value.prim (Prim.int 1)), ("x", Value.prim (Prim.int 2))]], Except.ok ()) := by
  constructor
  · exact ((insert_create_or_replace [] [("_id", Value.prim (Prim.int 1)), ("x", Value.prim (Prim.int 2))]
      (Value.prim (Prim.int 1)) (by decide)).1 (by decide)).1
  · exact ((insert_create_or_replace [[("_id", Value.prim (Prim.int 1)), ("y", Value.prim (Prim.int 3))]]
      [("_id", Value.prim (Prim.int 1)), ("x", Value.prim (Prim.int 2))]
      (Value.prim (Prim.int 1)) (by decide)).2
      [] [("_id", Value.prim (Prim.int 1)), ("y", Value.prim (Prim.int 3))] [] rfl
      (by intro x hx; simp at hx) (by decide) (by intro x hx; simp at hx)).1

/-! ## C10: missing `data` field in upsertEach / upsertStations batches -/

theorem upsert_each_doc_missing_data (s : Coll) (t : Nat) (bad : Doc) (idv : Value)
    (hbadId : lookupKV bad "_id" = some idv) (hbadData : lookupKV bad "data" = none) :
    upsert_each_doc s t bad = (s, Except.error (Err.keyError "data")) := by
  simp [upsert_each_doc, hbadId, hbadData]

theorem upsert_stations_doc_missing_data (s : Coll) (t : Nat) (bad : Doc)
    (hbadData : lookupKV bad "data" = none) :
    upsert_stations_doc s t bad = (s, Except.error (Err.keyError "data")) := by
  simp [upsert_stations_doc, hbadData]

/-- C10: a batch `good ++ bad :: rest` where `bad` lacks a `"data"` field
makes `upsert_each` and `upsert_stations` stop at `bad` with Python's raw
`KeyError` (only `OperationFailure` is caught, so the `KeyError` is not
translated into `DBError`/StorageFailure or `UsageError`/UsageFailure);
the state is exactly the state after the good prefix (earlier documents
stay updated) and the documents after `bad` are never touched. -/
theorem upsert_missing_data_raw_keyerror (s : Coll) (good rest : List Doc) (bad : Doc)
    (t : Nat) (idv : Value)
    (hgoodE : (upsert_each s good t).2 = Except.ok ())
    (hgoodS : (upsert_stations s good t).2 = Except.ok ())
    (hbadId : lookupKV bad "_id" = some idv)
    (hbadData : lookupKV bad "data" = none) :
    upsert_each s (good ++ bad :: rest) t
      = ((upsert_each s good t).1, Except.error (Err.keyError "data")) ∧
    upsert_stations s (good ++ bad :: rest) t
      = ((upsert_stations s good t).1, Except.error (Err.keyError "data")) ∧
    Err.keyError "data" ≠ Err.dbError ∧ Err.keyError "data" ≠ Err.usageError := by
  refine ⟨?_, ?_, by decide, by decide⟩
  · have e1 : upsert_each s (good ++ bad :: rest) t
        = runBatch (fun s1 d => upsert_each_doc s1 t d) (upsert_each s good t).1 (bad :: rest) :=
      runBatch_append _ good s (bad :: rest) hgoodE
    rw [e1, runBatch_cons]
    rw [upsert_each_doc_missing_data _ t bad idv hbadId hbadData]
  · have e1 : upsert_stations s (good ++ bad :: rest) t
        = runBatch (fun s1 d => upsert_stations_doc s1 t d) (upsert_stations s good t).1
            (bad :: rest) :=
      runBatch_append _ good s (bad :: rest) hgoodS
    rw [e1, runBatch_cons]
    rw [upsert_stations_doc_missing_data _ t bad hbadData]

/-- C10 witness: a concrete three-document batch whose middle document
lacks `"data"`. -/
theorem upsert_missing_data_raw_keyerror_witness :
    upsert_each []
      [[("_id", Value.prim (Prim.int 1)), ("data", Value.dict [])],
       [("_id", Value.prim (Prim.int 2))],
       [("_id", Value.prim (Prim.int 3)), ("data", Value.dict [])]] 0
      = ([[("_id", Value.prim (Prim.int 1)), ("data", Value.dict []),
           ("createTime", Value.prim (Prim.time 0))]],
         Except.error (Err.keyError "data")) ∧
    upsert_stations []
      [[("_id", Value.prim (Prim.int 1)), ("data", Value.dict [("a", Prim.int 1)])],
       [("_id", Value.prim (Prim.int 2))],
       [("_id", Value.prim (Prim.int 3)), ("data", Value.dict [])]] 0
      = ([[("_id", Value.prim (Prim.int 1)),
           ("data", Value.dict [("a", Prim.int 1)]),
           ("createTime", Value.prim (Prim.time 0))]],
         Except.error (Err.keyError "data")) := by
  constructor
  · exact (upsert_missing_data_raw_keyerror []
      [[("_id", Value.prim (Prim.int 1)), ("data", Value.dict [])]]
      [[("_id", Value.prim (Prim.int 3)), ("data", Value.dict [])]]
      [("_id", Value.prim (Prim.int 2))] 0 (Value.prim (Prim.int 2))
      rfl rfl rfl rfl).1
  · exact (upsert_missing_data_raw_keyerror []
      [[("_id", Value.prim (Prim.int 1)), ("data", Value.dict [("a", Prim.int 1)])]]
      [[("_id", Value.prim (Prim.int 3)), ("data", Value.dict [])]]
      [("_id", Value.prim (Prim.int 2))] 0 (Value.prim (Prim.int 2))
      rfl rfl rfl rfl).2.1

/-! ## C5: upsertEach replaces `data` wholesale, frames the rest -/

/-- C5: on the stored document matched by identity, `upsert_each`
replaces the `"data"` field wholesale with the incoming `"data"` value
and leaves every other top-level field (and every other document)
unchanged. -/
theorem upsert_each_replaces_data_only (pre post : Coll) (dSt : Doc) (idv dv : Value)
    (t : Nat) (k : String)
    (hid : lookupKV dSt "_id" = some idv)
    (hpre : ∀ x ∈ pre, docMatches [("_id", idv)] x = false) :
    upsert_each (pre ++ dSt :: post) [[("_id", idv), ("data", dv)]] t
      = (pre ++ setKV dSt "data" dv :: post, Except.ok ()) ∧
    lookupKV (setKV dSt "data" dv) "data" = some dv ∧
    (k ≠ "data" → lookupKV (setKV dSt "data" dv) k = lookupKV dSt k) := by
  have hz : docMatches [("_id", idv)] dSt = true := by
    rw [docMatches_singleton]
    simp [hid]
  have hany : (pre ++ dSt :: post).any (docMatches [("_id", idv)]) = true := by
    rw [List.any_append, List.any_cons, hz]
    simp
  have hconf : ([SetEntry.top "data" dv].any fun e =>
      ([SetEntry.top "createTime" (Value.prim (Prim.time t))].any fun e2 =>
        entryConflicts e e2)) = false := rfl
  have hupd : update_one (pre ++ dSt :: post) [("_id", idv)] [SetEntry.top "data" dv]
      [SetEntry.top "createTime" (Value.prim (Prim.time t))]
      = .ok (pre ++ setKV dSt "data" dv :: post) := by
    unfold update_one
    rw [hconf, if_neg (by simp), hany, if_pos rfl]
    rw [updateFirstE_decomp _ _ pre post dSt hpre hz]
    rfl
  refine ⟨?_, ?_, ?_⟩
  · show runBatch _ _ _ = _
    rw [runBatch_cons]
    have hstep : upsert_each_doc (pre ++ dSt :: post) t [("_id", idv), ("data", dv)]
        = (pre ++ setKV dSt "data" dv :: post, Except.ok ()) := by
      simp [upsert_each_doc, hupd]
    simp only [hstep, runBatch_nil]
  · rw [lookupKV_setKV]
    simp
  · intro hk
    rw [lookupKV_setKV, if_neg (fun hh => hk hh.symm)]

/-- C5 witness: stored `data = {a:1, b:2}` with a sibling field `x`;
incoming `data = {c:3}` replaces `data` wholesale and leaves `x`. -/
theorem upsert_each_replaces_data_only_witness :
    upsert_each
      [[("_id", Value.prim (Prim.int 7)), ("x", Value.prim (Prim.int 9)),
        ("data", Value.dict [("a", Prim.int 1), ("b", Prim.int 2)])]]
      [[("_id", Value.prim (Prim.int 7)), ("data", Value.dict [("c", Prim.int 3)])]] 0
      = ([[("_id", Value.prim (Prim.int 7)), ("x", Value.prim (Prim.int 9)),
           ("data", Value.dict [("c", Prim.int 3)])]], Except.ok ()) := by
  exact (upsert_each_replaces_data_only [] []
    [("_id", Value.prim (Prim.int 7)), ("x", Value.prim (Prim.int 9)),
      ("data", Value.dict [("a", Prim.int 1), ("b", Prim.int 2)])]
    (Value.prim (Prim.int 7)) (Value.dict [("c", Prim.int 3)]) 0 "x"
    (by decide) (by intro x hx; simp at hx)).1

/-! ## C4: upsertStations merges at sub-key granularity -/

theorem upsertStationItemsCons (s : Coll) (iv : Value) (t : Nat) (stId : String) (v : Prim)
    (rest : List (String × Prim)) :
    upsertStationItems s (some iv) t ((stId, v) :: rest)
      = match update_one s [("_id", iv)] [SetEntry.sub "data" stId v]
          [SetEntry.top "createTime" (Value.prim (Prim.time t))] with
        | .ok s1 => upsertStationItems s1 (some iv) t rest
        | .error e => (s, .error e) := rfl

/-- A single `$set {"data.<stId>": v}` upsert against a collection whose
single document carries the matched identity and a dict-valued `data`
field: only the `stId` sub-key of `data` changes. -/
theorem station_update_step (idv : Value) (extra : Doc) (m : List (String × Prim))
    (stId : String) (v : Prim) (t : Nat) :
    update_one [("_id", idv) :: ("data", Value.dict m) :: extra] [("_id", idv)]
      [SetEntry.sub "data" stId v] [SetEntry.top "createTime" (Value.prim (Prim.time t))]
      = .ok [("_id", idv) :: ("data", Value.dict (setKV m stId v)) :: extra] := by
  have hz : docMatches [("_id", idv)] (("_id", idv) :: ("data", Value.dict m) :: extra)
      = true := by
    rw [docMatches_singleton]
    simp
  have hconf : ([SetEntry.sub "data" stId v].any fun e =>
      ([SetEntry.top "createTime" (Value.prim (Prim.time t))].any fun e2 =>
        entryConflicts e e2)) = false := rfl
  unfold update_one
  rw [hconf, if_neg (by simp)]
  rw [List.any_cons, hz, if_pos (by simp)]
  rw [updateFirstE_cons_pos _ _ _ _ hz]
  rfl

/-- Running the inner station loop over `items` folds `setKV` over the
stored `data` sub-mapping, item by item. -/
theorem upsertStationItems_run (idv : Value) (extra : Doc) (t : Nat) :
    ∀ (items m : List (String × Prim)),
      upsertStationItems [("_id", idv) :: ("data", Value.dict m) :: extra] (some idv) t items
        = ([("_id", idv) :: ("data", Value.dict (applyFields m items)) :: extra],
           Except.ok ()) := by
  intro items
  induction items with
  | nil => intro m; rfl
  | cons sv rest ih =>
    intro m
    obtain ⟨stId, v⟩ := sv
    rw [upsertStationItemsCons, station_update_step]
    change upsertStationItems
      [("_id", idv) :: ("data", Value.dict (setKV m stId v)) :: extra] (some idv) t rest = _
    exact ih (setKV m stId v)

/-- C4: `upsert_stations` merges at sub-key granularity.  Against a
stored document of the matched identity with `data` sub-mapping `m0`, an
incoming document with `data` sub-mapping `mIn` (distinct sub-keys, as
any Python dict has) leaves the stored document with `data` equal to
`m0` overwritten by `mIn` sub-key by sub-key: every sub-key of `mIn`
overwrites or creates its entry, and every sub-key of `m0` absent from
`mIn` keeps its old value. -/
theorem upsert_stations_subkey_merge (idv : Value) (extra : Doc)
    (m0 mIn : List (String × Prim)) (t : Nat) (k : String)
    (hnd : (mIn.map Prod.fst).Nodup) :
    upsert_stations [("_id", idv) :: ("data", Value.dict m0) :: extra]
        [[("_id", idv), ("data", Value.dict mIn)]] t
      = ([("_id", idv) :: ("data", Value.dict (applyFields m0 mIn)) :: extra],
         Except.ok ()) ∧
    lookupKV (applyFields m0 mIn) k = firstSome (lookupKV mIn k) (lookupKV m0 k) := by
  constructor
  · show runBatch _ _ _ = _
    rw [runBatch_cons]
    have hstep : upsert_stations_doc (([("_id", idv) :: ("data", Value.dict m0) :: extra] : Coll)) t
        [("_id", idv), ("data", Value.dict mIn)]
        = ([("_id", idv) :: ("data", Value.dict (applyFields m0 mIn)) :: extra],
           Except.ok ()) := by
      show upsertStationItems _ (some idv) t mIn = _
      exact upsertStationItems_run idv extra t mIn m0
    simp only [hstep, runBatch_nil]
  · exact lookupKV_applyFields k mIn m0 hnd

/-- C4 witness: stored `data = {a:1, b:2}`, incoming `data = {b:3, c:4}`
of the same identity yields stored `data = {a:1, b:3, c:4}`. -/
theorem upsert_stations_subkey_merge_witness :
    upsert_stations
      [[("_id", Value.prim (Prim.int 7)),
        ("data", Value.dict [("a", Prim.int 1), ("b", Prim.int 2)])]]
      [[("_id", Value.prim (Prim.int 7)),
        ("data", Value.dict [("b", Prim.int 3), ("c", Prim.int 4)])]] 0
      = ([[("_id", Value.prim (Prim.int 7)),
           ("data", Value.dict [("a", Prim.int 1), ("b", Prim.int 3), ("c", Prim.int 4)])]],
         Except.ok ()) := by
  exact (upsert_stations_subkey_merge (Value.prim (Prim.int 7)) []
    [("a", Prim.int 1), ("b", Prim.int 2)] [("b", Prim.int 3), ("c", Prim.int 4)] 0 "a"
    (by decide)).1

/-! ## C6: upsertAll is idempotent (creation timestamp set once) -/

theorem applyUpdate_tops :
    ∀ (fs : List (String × Value)) (d0 : Doc),
      applyUpdate d0 (fs.map fun kv => SetEntry.top kv.1 kv.2) = .ok (applyFields d0 fs) := by
  intro fs
  induction fs with
  | nil => intro d0; rfl
  | cons kv rest ih =>
    intro d0
    rw [List.map_cons]
    show applyUpdate (setKV d0 kv.1 kv.2) (rest.map fun kv => SetEntry.top kv.1 kv.2) = _
    rw [ih, applyFields_cons]

theorem innerAnyEta (v : SetEntry) :
    (fun e => [v].any fun e2 => entryConflicts e e2) = (fun e => entryConflicts e v) := by
  funext e
  simp

theorem upsertAllConflictFalse (w : Value) :
    ∀ d : Doc, lookupKV d "createTime" = none →
      ((d.map fun kv => SetEntry.top kv.1 kv.2).any fun e =>
        entryConflicts e (SetEntry.top "createTime" w)) = false := by
  intro d
  induction d with
  | nil => intro _; rfl
  | cons kv rest ih =>
    intro h
    rw [lookupKV_cons] at h
    by_cases h1 : kv.1 = "createTime"
    · rw [if_pos h1] at h
      exact absurd h (by simp)
    · rw [if_neg h1] at h
      simp only [List.map_cons, List.any_cons]
      have hd : entryConflicts (SetEntry.top kv.1 kv.2) (SetEntry.top "createTime" w)
          = false := by
        simp [entryConflicts, h1]
      rw [hd, ih h]
      rfl

theorem upsertAllConflictTrue (w : Value) (c : Value) :
    ∀ d : Doc, lookupKV d "createTime" = some c →
      ((d.map fun kv => SetEntry.top kv.1 kv.2).any fun e =>
        entryConflicts e (SetEntry.top "createTime" w)) = true := by
  intro d
  induction d with
  | nil => intro h; simp at h
  | cons kv rest ih =>
    intro h
    rw [lookupKV_cons] at h
    simp only [List.map_cons, List.any_cons]
    by_cases h1 : kv.1 = "createTime"
    · have hd : entryConflicts (SetEntry.top kv.1 kv.2) (SetEntry.top "createTime" w)
          = true := by
        simp [entryConflicts, h1]
      rw [hd]
      rfl
    · rw [if_neg h1] at h
      have hd : entryConflicts (SetEntry.top kv.1 kv.2) (SetEntry.top "createTime" w)
          = false := by
        simp [entryConflicts, h1]
      rw [hd, ih h]
      rfl

theorem updateFirstE_twice (p : Doc → Bool) (g : Doc → Doc)
    (hpg : ∀ z, p (g z) = true) (hgg : ∀ z, g (g z) = g z) :
    ∀ s : Coll, s.any p = true →
      ∃ s1, updateFirstE s p (fun z => .ok (g z)) = .ok s1 ∧ s1.any p = true ∧
        updateFirstE s1 p (fun z => .ok (g z)) = .ok s1 := by
  intro s
  induction s with
  | nil => intro h; simp at h
  | cons x rest ih =>
    intro h
    by_cases hx : p x = true
    · refine ⟨g x :: rest, ?_, ?_, ?_⟩
      · rw [updateFirstE_cons_pos _ _ _ _ hx]
      · rw [List.any_cons, hpg x]
        rfl
      · rw [updateFirstE_cons_pos _ _ _ _ (hpg x)]
        show Except.ok (g (g x) :: rest) = _
        rw [hgg x]
    · have hx2 : p x = false := by
        revert hx; cases p x <;> simp
      have hrest : rest.any p = true := by
        rw [List.any_cons, hx2] at h
        simpa using h
      obtain ⟨r1, e1, hany1, e2⟩ := ih hrest
      refine ⟨x :: r1, ?_, ?_, ?_⟩
      · rw [updateFirstE_cons_neg _ _ _ _ hx2, e1]
      · rw [List.any_cons, hany1]
        simp
      · rw [updateFirstE_cons_neg _ _ _ _ hx2, e2]

theorem upsert_all_single (s : Coll) (d : Doc) (idv : Value) (t : Nat)
    (hid : lookupKV d "_id" = some idv) :
    upsert_all s [d] t =
      match update_one s [("_id", idv)] (d.map fun kv => SetEntry.top kv.1 kv.2)
          [SetEntry.top "createTime" (Value.prim (Prim.time t))] with
        | .ok s1 => (s1, Except.ok ())
        | .error e => (s, Except.error e) := by
  show runBatch _ _ _ = _
  rw [runBatch_cons]
  cases hu : update_one s [("_id", idv)] (d.map fun kv => SetEntry.top kv.1 kv.2)
      [SetEntry.top "createTime" (Value.prim (Prim.time t))] with
  | ok s1 =>
    have hstep : upsert_all_doc s t d = (s1, Except.ok ()) := by
      simp [upsert_all_doc, hid, hu]
    simp only [hstep, hu, runBatch_nil]
  | error e =>
    have hstep : upsert_all_doc s t d = (s, Except.error e) := by
      simp [upsert_all_doc, hid, hu]
    simp only [hstep, hu]

/-- C6: `upsert_all` is idempotent.  For every identity-bearing document
`d` (a Python dict, hence distinct keys) and state `s`, applying
`upsert_all [d]` twice — at clock readings `t1` then `t2` — leaves the
same stored state as applying it once; and when the identity was not
previously present (and `d` does not itself carry a `createTime` key,
which MongoDB would reject as conflicting `$set`/`$setOnInsert` paths),
the document visible under the identity filter carries the creation
timestamp of the *first* application after both the first and the second
application. -/
theorem upsert_all_idempotent (s : Coll) (d : Doc) (idv : Value) (t1 t2 : Nat)
    (hid : lookupKV d "_id" = some idv)
    (hnd : (d.map Prod.fst).Nodup) :
    (upsert_all (upsert_all s [d] t1).1 [d] t2).1 = (upsert_all s [d] t1).1 ∧
    (lookupKV d "createTime" = none → select s [("_id", idv)] = [] →
      ∃ z, select (upsert_all s [d] t1).1 [("_id", idv)] = [z] ∧
        select (upsert_all (upsert_all s [d] t1).1 [d] t2).1 [("_id", idv)] = [z] ∧
        lookupKV z "createTime" = some (Value.prim (Prim.time t1))) := by
  cases hct : lookupKV d "createTime" with
  | some c =>
    have hu1 : update_one s [("_id", idv)] (d.map fun kv => SetEntry.top kv.1 kv.2)
        [SetEntry.top "createTime" (Value.prim (Prim.time t1))] = .error Err.dbError := by
      unfold update_one
      rw [innerAnyEta (SetEntry.top "createTime" (Value.prim (Prim.time t1))),
        upsertAllConflictTrue (Value.prim (Prim.time t1)) c d hct, if_pos rfl]
    have hu2 : update_one s [("_id", idv)] (d.map fun kv => SetEntry.top kv.1 kv.2)
        [SetEntry.top "createTime" (Value.prim (Prim.time t2))] = .error Err.dbError := by
      unfold update_one
      rw [innerAnyEta (SetEntry.top "createTime" (Value.prim (Prim.time t2))),
        upsertAllConflictTrue (Value.prim (Prim.time t2)) c d hct, if_pos rfl]
    have e1 : upsert_all s [d] t1 = (s, Except.error Err.dbError) := by
      rw [upsert_all_single s d idv t1 hid, hu1]
    have e2 : upsert_all s [d] t2 = (s, Except.error Err.dbError) := by
      rw [upsert_all_single s d idv t2 hid, hu2]
    constructor
    · rw [e1]
      show (upsert_all s [d] t2).1 = s
      rw [e2]
    · intro hnone _
      exact absurd hnone (by simp)
  | none =>
    have hconf1 := upsertAllConflictFalse (Value.prim (Prim.time t1)) d hct
    have hconf2 := upsertAllConflictFalse (Value.prim (Prim.time t2)) d hct
    have hkeys : ∀ kv ∈ d, kv.1 ≠ "createTime" := keys_ne_of_lookup_none "createTime" d hct
    have hfun : (fun z => applyUpdate z (d.map fun kv => SetEntry.top kv.1 kv.2))
        = (fun z => Except.ok (applyFields z d)) :=
      funext fun z => applyUpdate_tops d z
    have hself : ∀ (z : Doc), ∀ kv ∈ d, lookupKV (applyFields z d) kv.1 = some kv.2 := by
      intro z kv hm
      rw [lookupKV_applyFields kv.1 d z hnd,
        lookupKV_of_mem_nodup kv.1 kv.2 d hnd (by rw [Prod.mk.eta]; exact hm)]
      rfl
    have hpg : ∀ z, docMatches [("_id", idv)] (applyFields z d) = true := by
      intro z
      rw [docMatches_singleton, lookupKV_applyFields "_id" d z hnd, hid]
      simp [firstSome]
    have hgg : ∀ z, applyFields (applyFields z d) d = applyFields z d := by
      intro z
      exact applyFields_noop d _ (hself z)
    cases hmatch : s.any (docMatches [("_id", idv)]) with
    | true =>
      obtain ⟨s1, e1, hany1, e2⟩ :=
        updateFirstE_twice (docMatches [("_id", idv)]) (fun z => applyFields z d) hpg hgg s hmatch
      have hu1 : update_one s [("_id", idv)] (d.map fun kv => SetEntry.top kv.1 kv.2)
          [SetEntry.top "createTime" (Value.prim (Prim.time t1))] = .ok s1 := by
        unfold update_one
        rw [innerAnyEta (SetEntry.top "createTime" (Value.prim (Prim.time t1))),
          hconf1, if_neg (by simp), hmatch, if_pos rfl, hfun]
        exact e1
      have hu2 : update_one s1 [("_id", idv)] (d.map fun kv => SetEntry.top kv.1 kv.2)
          [SetEntry.top "createTime" (Value.prim (Prim.time t2))] = .ok s1 := by
        unfold update_one
        rw [innerAnyEta (SetEntry.top "createTime" (Value.prim (Prim.time t2))),
          hconf2, if_neg (by simp), hany1, if_pos rfl, hfun]
        exact e2
      have hA1 : upsert_all s [d] t1 = (s1, Except.ok ()) := by
        rw [upsert_all_single s d idv t1 hid, hu1]
      have hA2 : upsert_all s1 [d] t2 = (s1, Except.ok ()) := by
        rw [upsert_all_single s1 d idv t2 hid, hu2]
      constructor
      · rw [hA1]
        show (upsert_all s1 [d] t2).1 = s1
        rw [hA2]
      · intro _ hsel
        exact absurd hsel
          (filter_ne_nil_of_any (docMatches [("_id", idv)]) s hmatch)
    | false =>
      have hall : ∀ x ∈ s, docMatches [("_id", idv)] x = false :=
        forall_false_of_any_false _ s hmatch
      have hu1 : update_one s [("_id", idv)] (d.map fun kv => SetEntry.top kv.1 kv.2)
          [SetEntry.top "createTime" (Value.prim (Prim.time t1))]
          = .ok (s ++ [setKV (applyFields [("_id", idv)] d) "createTime"
              (Value.prim (Prim.time t1))]) := by
        unfold update_one
        rw [innerAnyEta (SetEntry.top "createTime" (Value.prim (Prim.time t1))),
          hconf1, if_neg (by simp), hmatch, if_neg (by simp),
          applyUpdate_tops d [("_id", idv)]]
        rfl
      have hlookid : lookupKV (setKV (applyFields [("_id", idv)] d) "createTime"
          (Value.prim (Prim.time t1))) "_id" = some idv := by
        rw [lookupKV_setKV, if_neg (by decide), lookupKV_applyFields "_id" d _ hnd, hid]
        rfl
      have hpnew : docMatches [("_id", idv)] (setKV (applyFields [("_id", idv)] d) "createTime"
          (Value.prim (Prim.time t1))) = true := by
        rw [docMatches_singleton, hlookid]
        simp
      have hctnew : lookupKV (setKV (applyFields [("_id", idv)] d) "createTime"
          (Value.prim (Prim.time t1))) "createTime" = some (Value.prim (Prim.time t1)) := by
        rw [lookupKV_setKV, if_pos rfl]
      have hgnew : applyFields (setKV (applyFields [("_id", idv)] d) "createTime"
          (Value.prim (Prim.time t1))) d = setKV (applyFields [("_id", idv)] d) "createTime"
          (Value.prim (Prim.time t1)) := by
        apply applyFields_noop
        intro kv hm
        rw [lookupKV_setKV, if_neg (fun hh => hkeys kv hm hh.symm)]
        exact hself [("_id", idv)] kv hm
      have hany2 : (s ++ [setKV (applyFields [("_id", idv)] d) "createTime"
          (Value.prim (Prim.time t1))]).any (docMatches [("_id", idv)]) = true := by
        rw [List.any_append, List.any_cons, hpnew]
        simp
      have hu2 : update_one (s ++ [setKV (applyFields [("_id", idv)] d) "createTime"
            (Value.prim (Prim.time t1))]) [("_id", idv)]
          (d.map fun kv => SetEntry.top kv.1 kv.2)
          [SetEntry.top "createTime" (Value.prim (Prim.time t2))]
          = .ok (s ++ [setKV (applyFields [("_id", idv)] d) "createTime"
              (Value.prim (Prim.time t1))]) := by
        unfold update_one
        rw [innerAnyEta (SetEntry.top "createTime" (Value.prim (Prim.time t2))),
          hconf2, if_neg (by simp), hany2, if_pos rfl, hfun]
        rw [updateFirstE_append _ _ s _ hall,
          updateFirstE_cons_pos _ _ _ _ hpnew]
        simp only [hgnew]
      have hA1 : upsert_all s [d] t1 = (s ++ [setKV (applyFields [("_id", idv)] d) "createTime"
          (Value.prim (Prim.time t1))], Except.ok ()) := by
        rw [upsert_all_single s d idv t1 hid, hu1]
      have hA2 : upsert_all (s ++ [setKV (applyFields [("_id", idv)] d) "createTime"
            (Value.prim (Prim.time t1))]) [d] t2
          = (s ++ [setKV (applyFields [("_id", idv)] d) "createTime"
              (Value.prim (Prim.time t1))], Except.ok ()) := by
        rw [upsert_all_single _ d idv t2 hid, hu2]
      constructor
      · rw [hA1]
        show (upsert_all _ [d] t2).1 = _
        rw [hA2]
      · intro _ hsel
        refine ⟨setKV (applyFields [("_id", idv)] d) "createTime"
          (Value.prim (Prim.time t1)), ?_, ?_, hctnew⟩
        · rw [hA1]
          show select (s ++ _) [("_id", idv)] = _
          rw [select_append, hsel]
          simp [select, List.filter_cons, hpnew]
        · rw [hA1]
          show select (upsert_all (s ++ _) [d] t2).1 [("_id", idv)] = _
          rw [hA2]
          show select (s ++ _) [("_id", idv)] = _
          rw [select_append, hsel]
          simp [select, List.filter_cons, hpnew]

/-- C6 witness: a fresh identity upserted twice with different clocks
keeps the first creation timestamp and the same stored state. -/
theorem upsert_all_idempotent_witness :
    (upsert_all (upsert_all [] [[("_id", Value.prim (Prim.int 7)),
        ("data", Value.dict [("a", Prim.int 1)])]] 5).1
      [[("_id", Value.prim (Prim.int 7)), ("data", Value.dict [("a", Prim.int 1)])]] 9).1
      = (upsert_all [] [[("_id", Value.prim (Prim.int 7)),
          ("data", Value.dict [("a", Prim.int 1)])]] 5).1 ∧
    ∃ z, select (upsert_all [] [[("_id", Value.prim (Prim.int 7)),
          ("data", Value.dict [("a", Prim.int 1)])]] 5).1 [("_id", Value.prim (Prim.int 7))]
        = [z] ∧
      select (upsert_all (upsert_all [] [[("_id", Value.prim (Prim.int 7)),
            ("data", Value.dict [("a", Prim.int 1)])]] 5).1
          [[("_id", Value.prim (Prim.int 7)), ("data", Value.dict [("a", Prim.int 1)])]] 9).1
          [("_id", Value.prim (Prim.int 7))] = [z] ∧
      lookupKV z "createTime" = some (Value.prim (Prim.time 5)) := by
  have h := upsert_all_idempotent [] [("_id", Value.prim (Prim.int 7)),
    ("data", Value.dict [("a", Prim.int 1)])] (Value.prim (Prim.int 7)) 5 9
    (by decide) (by decide)
  exact ⟨h.1, h.2 (by decide) rfl⟩

end MongoTest
